import Mathlib

/-!
Verification of the Bulletproofs range-proof engine
(`go-ethereum/zkrangeproof/bulletproofs.go`, package `zkrangeproof`).

The elliptic-curve point type `p256`, its operations, `MapToGroup`
(hash-to-curve) and SHA-256 are external collaborators of the package;
they are modelled abstractly by the parameter structure `Ext` below.
Scalars (`*big.Int`) are modelled as `Int`; the big-integer helper
wrappers of the package that are not part of this file
(`Add`, `Sub`, `Multiply`, `Mod`, `ModInverse`, `Decompose`, `CommitG1`,
`byteconversion.FromByteArray`) are modelled from the spec, each marked
by a doc comment starting with `Modelled from the spec:`.

Go slices become `List`s; the in-place mutation of points and of the
receiver structs (`bp`, `bip`) becomes explicit state passing: each
mutating method returns the updated struct (and, for `bip.Prove`, the
updated value of the caller's point argument `P`, which the source
multiplies in place).
-/

namespace ZKRP

/-- The external world of the package: the `p256` curve group operations,
the textual point encoding `p256.String()` used by the Fiat-Shamir
transcript, the hash-to-curve map `MapToGroup`, and SHA-256
(`crypto/sha256`, a byte-list to byte-list function).  All of these live
outside the repository file under verification. -/
structure Ext (Pt : Type) where
  /-- `p256.Multiply` (the group operation, written multiplicatively). -/
  mul : Pt → Pt → Pt
  /-- `p256.ScalarMult`. -/
  smul : Pt → Int → Pt
  /-- `p256.ScalarBaseMult` (scalar times the canonical base point). -/
  baseMult : Int → Pt
  /-- `p256.Neg` (group inverse). -/
  neg : Pt → Pt
  /-- `p256.SetInfinity` (the identity element). -/
  infinity : Pt
  /-- `p256.IsZero` (test for the identity element). -/
  isZero : Pt → Bool
  /-- `p256.String()` as a byte list (the textual point encoding). -/
  str : Pt → List Nat
  /-- `MapToGroup` (hash-to-curve from a seed string). -/
  mapToGroup : String → Pt
  /-- SHA-256 over a byte list, yielding the digest byte list. -/
  sha : List Nat → List Nat

/-- `ORDER = CURVE.N`: the order of the secp256k1 group (spec section 6:
"Curve: secp256k1 ... with prime order q = N"). -/
def ORDER : Int := 115792089237316195423570985008687907852837564279074904382605163141518161494337

/-- Modelled from the spec: the big-integer helper `Add` of the package
(out-of-scope "big-integer modular arithmetic library"). -/
def Add (a b : Int) : Int := a + b

/-- Modelled from the spec: the big-integer helper `Sub`. -/
def Sub (a b : Int) : Int := a - b

/-- Modelled from the spec: the big-integer helper `Multiply`. -/
def Multiply (a b : Int) : Int := a * b

/-- Modelled from the spec: the big-integer helper `Mod`.  Go's
`big.Int.Mod` is Euclidean modulus (result in `[0, m)` for `m > 0`),
which is `Int.emod` for a positive modulus. -/
def Mod (a b : Int) : Int := a % b

/-- The extended-Euclid iteration behind `ModInverse`: state
`(r, newr, t, newt)` with quotient steps, driven by an explicit fuel
(the remainder strictly decreases, so `newr`-many steps suffice). -/
def modInvLoop : Nat → Int → Int → Int → Int → Int
  | 0, _, _, t, _ => t
  | f + 1, r, newr, t, newt =>
    if newr = 0 then t
    else modInvLoop f newr (r % newr) newt (t - (r / newr) * newt)

/-- Modelled from the spec: `ModInverse` ("x⁻¹ = modular inverse",
spec section 4.4), the wrapper of `big.Int.ModInverse`; the result is the
inverse of `a` modulo `n`, in `[0, n)`, whenever `gcd(a, n) = 1`
(the only case the protocol exercises). -/
def ModInverse (a n : Int) : Int :=
  ((modInvLoop (n.natAbs + 2) n (a % n) 0 1) % n + n) % n

/-- Error values (`errors.New` messages in the source, plus the
spec's error taxonomy for modelled helpers). -/
abbrev Err := String

/-- The message of the length check shared by the vector helpers. -/
def vecSizeErr : Err := "Size of first argument is different from size of second argument."

/-- The message of the length check in `bip.Prove`. -/
def bipSizeErr : Err := "Size of first array argument must be equal to the second"

/-- The spec's OutOfRange error (spec section 7). -/
def outOfRangeErr : Err := "OutOfRange"

/-- `result, _ := f(...)`: the source's pattern of discarding the error of
a fallible call; on error the Go result variable keeps its `nil`
zero value, modelled by the supplied default. -/
def orD {α : Type} (x : Except Err α) (d : α) : α :=
  match x with
  | .ok v => v
  | .error _ => d

/-- `VectorCopy` returns a vector composed by copies of `a`
(source lines 71-83; the error result is always nil). -/
def VectorCopy (a : Int) (n : Nat) : List Int := List.replicate n a

/-- `VectorConvertToBig` reads `n` entries of `a` into a fresh vector
(source lines 105-117; `a[i]` for `i < n`). -/
def VectorConvertToBig (a : List Int) (n : Nat) : List Int :=
  (List.range n).map (fun i => a.getD i 0)

/-- `VectorAdd` computes vector addition componentwise, each component
reduced `Mod ORDER` (source lines 122-140). -/
def VectorAdd (a b : List Int) : Except Err (List Int) :=
  if a.length ≠ b.length then .error vecSizeErr
  else .ok (List.zipWith (fun x y => Mod (Add x y) ORDER) a b)

/-- `VectorSub` computes vector subtraction componentwise, each component
reduced `Mod ORDER` (source lines 145-163). -/
def VectorSub (a b : List Int) : Except Err (List Int) :=
  if a.length ≠ b.length then .error vecSizeErr
  else .ok (List.zipWith (fun x y => Mod (Sub x y) ORDER) a b)

/-- `VectorScalarMul` multiplies every component by the scalar `b`,
reduced `Mod ORDER` (source lines 168-182; never errors). -/
def VectorScalarMul (a : List Int) (b : Int) : List Int :=
  a.map (fun x => Mod (Multiply x b) ORDER)

/-- `VectorMul` computes the Hadamard product, each component reduced
`Mod ORDER` (source lines 187-205). -/
def VectorMul (a b : List Int) : Except Err (List Int) :=
  if a.length ≠ b.length then .error vecSizeErr
  else .ok (List.zipWith (fun x y => Mod (Multiply x y) ORDER) a b)

/-- `VectorECAdd` applies the group operation componentwise
(source lines 210-227). -/
def VectorECAdd {Pt : Type} (E : Ext Pt) (a b : List Pt) : Except Err (List Pt) :=
  if a.length ≠ b.length then .error vecSizeErr
  else .ok (List.zipWith E.mul a b)

/-- The running accumulator of `ScalarProduct`:
`result = Mod(Add(result, Multiply(a[i], b[i])), ORDER)` at each step. -/
def ScalarProductAux (acc : Int) : List Int → List Int → Int
  | x :: xs, y :: ys => ScalarProductAux (Mod (Add acc (Multiply x y)) ORDER) xs ys
  | _, _ => acc

/-- `ScalarProduct` returns the inner product of `a` and `b`, reduced
`Mod ORDER` at every step (source lines 231-250). -/
def ScalarProduct (a b : List Int) : Except Err Int :=
  if a.length ≠ b.length then .error vecSizeErr
  else .ok (ScalarProductAux 0 a b)

/-- `VectorExp` computes `Prod_i a[i]^b[i]`, folding `Multiply` from
`SetInfinity` (source lines 255-272). -/
def VectorExp {Pt : Type} (E : Ext Pt) (a : List Pt) (b : List Int) : Except Err Pt :=
  if a.length ≠ b.length then .error vecSizeErr
  else .ok ((List.zipWith E.smul a b).foldl E.mul E.infinity)

/-- `VectorScalarExp` computes `a[i]^b` for each `i`
(source lines 277-290; never errors). -/
def VectorScalarExp {Pt : Type} (E : Ext Pt) (a : List Pt) (b : Int) : List Pt :=
  a.map (fun p => E.smul p b)

/-- The iteration of `PowerOf`: the current power is stored, then
multiplied by `x` and reduced `Mod ORDER` for the next slot. -/
def PowerOfAux (x : Int) (cur : Int) : Nat → List Int
  | 0 => []
  | n + 1 => cur :: PowerOfAux x (Mod (Multiply cur x) ORDER) n

/-- `PowerOf` returns the vector `(1, x, x², ...)` of length `n`, every
power after the first reduced `Mod ORDER` (source lines 295-310). -/
def PowerOf (x : Int) (n : Nat) : List Int := PowerOfAux x 1 n

/-- `ComputeAR`: `aR = aL - 1^n`, defined only on binary entries
(source lines 315-333). -/
def ComputeAR (x : List Int) : Except Err (List Int) :=
  if x.all (fun v => v = 0 ∨ v = 1) then
    .ok (x.map (fun v => if v = 0 then -1 else 0))
  else .error "input contains non-binary element"

/-- Modelled from the spec: `byteconversion.FromByteArray`
("interpreted big-endian as an unsigned integer", spec section 6);
the byte list is folded big-endian into a non-negative integer. -/
def FromByteArray (bs : List Nat) : Int :=
  Int.ofNat (bs.foldl (fun acc b => acc * 256 + b) 0)

/-- `HashBP` hashes the encodings of two points in both orders
(source lines 338-359): the first scalar digests `A.String()`
then `S.String()`, the second the reverse; each digest is converted by
`FromByteArray`.  No reduction modulo `ORDER` is performed. -/
def HashBP {Pt : Type} (E : Ext Pt) (A S : Pt) : Int × Int × Option Err :=
  (FromByteArray (E.sha (E.str A ++ E.str S)),
   FromByteArray (E.sha (E.str S ++ E.str A)),
   none)

/-- The decimal ASCII bytes of a natural number (Go `big.Int.String()`
for non-negative values). -/
def natDecimalBytes (n : Nat) : List Nat := (Nat.toDigits 10 n).map Char.toNat

/-- The decimal ASCII bytes of an integer (Go `big.Int.String()`;
a leading `-`, byte 45, for negative values). -/
def intDecimalBytes (i : Int) : List Nat :=
  if i < 0 then 45 :: natDecimalBytes i.natAbs else natDecimalBytes i.toNat

/-- `HashIP` digests `P.String()`, then `g[i].String()` and
`h[i].String()` for `i < n` in order, then `c.String()`, and converts the
digest by `FromByteArray` (source lines 707-728).  No reduction modulo
`ORDER` is performed. -/
def HashIP {Pt : Type} (E : Ext Pt) (g h : List Pt) (P : Pt) (c : Int) (n : Nat) : Int :=
  FromByteArray (E.sha
    (E.str P
      ++ (List.range n).foldl
           (fun acc i => acc ++ E.str (g.getD i E.infinity) ++ E.str (h.getD i E.infinity)) []
      ++ intDecimalBytes c))

/-- Modelled from the spec: `CommitG1` is the Pedersen commitment
`V = G^v · H^γ` over the curve's canonical base (spec sections 3 and 4.2
step 1); in the source it is a package helper outside this file. -/
def CommitG1 {Pt : Type} (E : Ext Pt) (x r : Int) (H : Pt) : Pt :=
  E.mul (E.baseMult x) (E.smul H r)

/-- `CommitVector` computes `H^alpha · Π g[i]^{aL[i]} · Π h[i]^{aR[i]}`
over `i < n` (source lines 366-382; the parameter `G` is unused by the
body, exactly as in the source). -/
def CommitVector {Pt : Type} (E : Ext Pt) (aL aR : List Int) (alpha : Int)
    (_G H : Pt) (g h : List Pt) (n : Nat) : Pt :=
  (List.range n).foldl
    (fun R i =>
      E.mul (E.mul R (E.smul (g.getD i E.infinity) (aL.getD i 0)))
        (E.smul (h.getD i E.infinity) (aR.getD i 0)))
    (E.smul H alpha)

/-- `CommitVectorBig`: as `CommitVector` for big-integer vectors
(source lines 384-398). -/
def CommitVectorBig {Pt : Type} (E : Ext Pt) (aL aR : List Int) (alpha : Int)
    (_G H : Pt) (g h : List Pt) (n : Nat) : Pt :=
  (List.range n).foldl
    (fun R i =>
      E.mul (E.mul R (E.smul (g.getD i E.infinity) (aL.getD i 0)))
        (E.smul (h.getD i E.infinity) (aR.getD i 0)))
    (E.smul H alpha)

/-- `CommitInnerProduct` computes `g^a · h^b` (source lines 733-742;
the errors of the two `VectorExp` calls are discarded). -/
def CommitInnerProduct {Pt : Type} (E : Ext Pt) (g h : List Pt) (a b : List Int) : Pt :=
  E.mul (orD (VectorExp E g a) E.infinity) (orD (VectorExp E h b) E.infinity)

/-- `Delta` computes
`(z - z²)·⟨1ⁿ, yⁿ⟩ - z³·⟨1ⁿ, 2ⁿ⟩` with the final `Mod ORDER`
(source lines 403-428; the receiver's field `zkrp.n` is passed as `n`). -/
def Delta (n : Nat) (y z : Int) : Int :=
  let z2 := Mod (Multiply z z) ORDER
  let z3 := Mod (Multiply z2 z) ORDER
  let v1 := VectorCopy 1 n
  let vy := PowerOf y n
  let sp1y := orD (ScalarProduct v1 vy) 0
  let p2n := PowerOf 2 n
  let sp12 := orD (ScalarProduct v1 p2n) 0
  Mod (Sub (Multiply (Sub z z2) sp1y) (Multiply z3 sp12)) ORDER

/-- Modelled from the spec: `Decompose(x, u, l)` is the base-`u`
decomposition of `x` into `l` digits; per spec sections 4.2 and 7 it
"fails with OutOfRange when v is outside [0, 2ⁿ)" (here: outside
`[0, u^l)`); in the source it is a package helper outside this file. -/
def Decompose (x : Int) (u : Nat) (l : Nat) : Except Err (List Int) :=
  if 0 ≤ x ∧ x < (u : Int) ^ l then
    .ok ((List.range l).map (fun i => ((x.toNat / u ^ i) % u : Nat)))
  else .error outOfRangeErr

/-- The "switch generators" loop shared by `bp.Prove` (source lines
578-588) and `bp.Verify` (source lines 623-632): `hprime[0] = h[0]` and
`hprime[i] = h[i]^{expy}` where `expy` is the running product of
`i` copies of `yinv = ModInverse y ORDER` (built by `Multiply` with no
reduction, hence the plain integer power). -/
def switchGenerators {Pt : Type} (E : Ext Pt) (h : List Pt) (n : Nat) (y : Int) : List Pt :=
  let yinv := ModInverse y ORDER
  (List.range n).map (fun i =>
    if i = 0 then h.getD 0 E.infinity else E.smul (h.getD i E.infinity) (yinv ^ i))

/-- Base struct for the Inner Product Argument: the struct `bip`
(source lines 679-687).  Named `bipState` here because its methods keep
the source's `bip` namespace. -/
structure bipState (Pt : Type) where
  n : Nat
  c : Int
  u : Pt
  H : Pt
  g : List Pt
  h : List Pt
  P : Pt

/-- Bulletproofs parameters: the struct `bp` (source lines 44-51). -/
structure bp (Pt : Type) where
  n : Nat
  G : Pt
  H : Pt
  g : List Pt
  h : List Pt
  zkip : bipState Pt

/-- The Inner Product Proof: the struct `proofBip` (source lines 692-702). -/
structure proofBip (Pt : Type) where
  Ls : List Pt
  Rs : List Pt
  u : Pt
  P : Pt
  g : Pt
  h : Pt
  a : Int
  b : Int
  n : Nat

/-- The Bulletproofs proof: the struct `proofBP` (source lines 56-66). -/
structure proofBP (Pt : Type) where
  V : Pt
  A : Pt
  S : Pt
  T1 : Pt
  T2 : Pt
  taux : Int
  mu : Int
  tprime : Int
  proofip : proofBip Pt

/-- The seed of the generator `H` (source line 37). -/
def SEEDH : String := "BulletproofsDoesNotNeedTrustedSetupH"

/-- The seed of the IPA generator `u` (source line 38). -/
def SEEDU : String := "BulletproofsDoesNotNeedTrustedSetupU"

/-- `BIP` (source lines 801-879) translated with an explicit fuel
argument: the source recurses on `n` by halving, which is not a
structural recursion; since every level consumes at least one halving,
`n` itself bounds the depth, and the wrapper `BIP` below passes the
initial `n` as fuel, so the fuel case `0` is unreachable whenever
`n ≥ 1`.  Every discarded error (`cL, _ = ...` and friends) leaves the
Go result at its nil zero value, modelled here by `orD` with the
empty/zero default.  On inputs where one of those discarded errors
actually fires, the real program does not continue with a default: the
nil result is dereferenced before any return and the call panics —
`BIPrun` below tracks that nil flow, and the claims use the value of
`BIPfuel` only on inputs where every internal check succeeds, so the
defaults are inert there.  For `n = 0` the source recursion does not
terminate; that branch returns a junk record and is exercised by no
claim. -/
def BIPfuel {Pt : Type} (E : Ext Pt) :
    Nat → List Int → List Int → List Pt → List Pt → Pt → Pt → Nat → List Pt → List Pt →
    proofBip Pt
  | 0, a, b, g, h, u, P, n, Ls, Rs =>
    { a := a.getD 0 0, b := b.getD 0 0, g := g.getD 0 E.infinity, h := h.getD 0 E.infinity,
      P := P, u := u, Ls := Ls, Rs := Rs, n := n }
  | f + 1, a, b, g, h, u, P, n, Ls, Rs =>
    if n = 1 then
      { a := a.getD 0 0, b := b.getD 0 0, g := g.getD 0 E.infinity, h := h.getD 0 E.infinity,
        P := P, u := u, Ls := Ls, Rs := Rs, n := n }
    else if n < 2 then
      { a := a.getD 0 0, b := b.getD 0 0, g := g.getD 0 E.infinity, h := h.getD 0 E.infinity,
        P := P, u := u, Ls := Ls, Rs := Rs, n := n }
    else
      let nprime := n / 2
      let cL := orD (ScalarProduct (a.take nprime) (b.drop nprime)) 0
      let cR := orD (ScalarProduct (a.drop nprime) (b.take nprime)) 0
      let L := E.mul (E.mul (orD (VectorExp E (g.drop nprime) (a.take nprime)) E.infinity)
                        (orD (VectorExp E (h.take nprime) (b.drop nprime)) E.infinity))
                 (E.smul u cL)
      let R := E.mul (E.mul (orD (VectorExp E (g.take nprime) (a.drop nprime)) E.infinity)
                        (orD (VectorExp E (h.drop nprime) (b.take nprime)) E.infinity))
                 (E.smul u cR)
      let x := (HashBP E L R).1
      let xinv := ModInverse x ORDER
      let gprime := orD (VectorECAdd E (VectorScalarExp E (g.take nprime) xinv)
                          (VectorScalarExp E (g.drop nprime) x)) []
      let hprime := orD (VectorECAdd E (VectorScalarExp E (h.take nprime) x)
                          (VectorScalarExp E (h.drop nprime) xinv)) []
      let x2 := Mod (Multiply x x) ORDER
      let x2inv := ModInverse x2 ORDER
      let Pprime := E.mul (E.mul (E.smul L x2) P) (E.smul R x2inv)
      let aprime := orD (VectorAdd (VectorScalarMul (a.take nprime) x)
                          (VectorScalarMul (a.drop nprime) xinv)) []
      let bprime := orD (VectorAdd (VectorScalarMul (b.take nprime) xinv)
                          (VectorScalarMul (b.drop nprime) x)) []
      let pf := BIPfuel E f aprime bprime gprime hprime u Pprime nprime (Ls ++ [L]) (Rs ++ [R])
      { pf with n := n }

/-- `BIP` is the main recursive function computing the inner product
argument (source lines 801-879); see `BIPfuel` for the fuel device. -/
def BIP {Pt : Type} (E : Ext Pt) (a b : List Int) (g h : List Pt) (u P : Pt) (n : Nat)
    (Ls Rs : List Pt) : proofBip Pt :=
  BIPfuel E n a b g h u P n Ls Rs

/-- The nil-flow refinement of `BIPfuel`.  The source discards the error
of every internal vector call; a failed length check leaves the Go
result at nil, and that nil is dereferenced before the function can
return — as the receiver or argument of `L.Multiply`/`R.Multiply`
(source lines 834-841), as the nil scalar handed to `ScalarMult`
(lines 835, 841), by the next level's slicing of a nil slice, or by the
base case's `a[0]`/`g[0]` indexing (lines 812-815) — so the call panics
and never returns normally, modelled by `none`.  The guard below
collects the length checks of exactly the discarded-error calls of one
level (`cL`, `cR`, the four `VectorExp`, the two `VectorECAdd` and the
two `VectorAdd` of lines 828-870, in that order); when every check
passes no nil arises and the level computes exactly as in `BIPfuel`.
The base case requires the four vectors to be non-empty (the source
indexes `a[0]`, `b[0]`, `g[0]`, `h[0]`).  `none` is also the result for
`n = 0` and on fuel exhaustion, where the source recursion never
terminates. -/
def BIPrun {Pt : Type} (E : Ext Pt) :
    Nat → List Int → List Int → List Pt → List Pt → Pt → Pt → Nat → List Pt → List Pt →
    Option (proofBip Pt)
  | 0, _, _, _, _, _, _, _, _, _ => none
  | f + 1, a, b, g, h, u, P, n, Ls, Rs =>
    if n = 1 then
      if 1 ≤ a.length ∧ 1 ≤ b.length ∧ 1 ≤ g.length ∧ 1 ≤ h.length then
        some { a := a.getD 0 0, b := b.getD 0 0, g := g.getD 0 E.infinity,
               h := h.getD 0 E.infinity, P := P, u := u, Ls := Ls, Rs := Rs, n := n }
      else none
    else if n < 2 then none
    else
      let nprime := n / 2
      if (a.take nprime).length = (b.drop nprime).length ∧
         (a.drop nprime).length = (b.take nprime).length ∧
         (g.drop nprime).length = (a.take nprime).length ∧
         (h.take nprime).length = (b.drop nprime).length ∧
         (g.take nprime).length = (a.drop nprime).length ∧
         (h.drop nprime).length = (b.take nprime).length ∧
         (g.take nprime).length = (g.drop nprime).length ∧
         (h.take nprime).length = (h.drop nprime).length ∧
         (a.take nprime).length = (a.drop nprime).length ∧
         (b.take nprime).length = (b.drop nprime).length then
        let cL := orD (ScalarProduct (a.take nprime) (b.drop nprime)) 0
        let cR := orD (ScalarProduct (a.drop nprime) (b.take nprime)) 0
        let L := E.mul (E.mul (orD (VectorExp E (g.drop nprime) (a.take nprime)) E.infinity)
                          (orD (VectorExp E (h.take nprime) (b.drop nprime)) E.infinity))
                   (E.smul u cL)
        let R := E.mul (E.mul (orD (VectorExp E (g.take nprime) (a.drop nprime)) E.infinity)
                          (orD (VectorExp E (h.drop nprime) (b.take nprime)) E.infinity))
                   (E.smul u cR)
        let x := (HashBP E L R).1
        let xinv := ModInverse x ORDER
        let gprime := orD (VectorECAdd E (VectorScalarExp E (g.take nprime) xinv)
                            (VectorScalarExp E (g.drop nprime) x)) []
        let hprime := orD (VectorECAdd E (VectorScalarExp E (h.take nprime) x)
                            (VectorScalarExp E (h.drop nprime) xinv)) []
        let x2 := Mod (Multiply x x) ORDER
        let x2inv := ModInverse x2 ORDER
        let Pprime := E.mul (E.mul (E.smul L x2) P) (E.smul R x2inv)
        let aprime := orD (VectorAdd (VectorScalarMul (a.take nprime) x)
                            (VectorScalarMul (a.drop nprime) xinv)) []
        let bprime := orD (VectorAdd (VectorScalarMul (b.take nprime) xinv)
                            (VectorScalarMul (b.drop nprime) x)) []
        match BIPrun E f aprime bprime gprime hprime u Pprime nprime (Ls ++ [L]) (Rs ++ [R]) with
        | none => none
        | some pf => some { pf with n := n }
      else none

/-- `bip.Setup` (source lines 748-763): sets `u` (by `MapToGroup` on
`SEEDU`), `H`, `g`, `h` and `c` on the receiver; the fields `n` and `P`
are left untouched.  The source also returns an empty `params` struct
and a nil error, both discarded by its only caller (`bp.Setup`), so they
are omitted here. -/
def bip.Setup {Pt : Type} (E : Ext Pt) (zkip : bipState Pt) (H : Pt) (g h : List Pt)
    (c : Int) : bipState Pt :=
  { zkip with u := E.mapToGroup SEEDU, H := H, g := g, h := h, c := c }

/-- `bip.Prove` (source lines 769-796): derives `x = HashIP(g,h,P,c,n)`,
multiplies the caller's point `P` in place by `u^{x·c}` (modelled by the
third component of the result, the final value of the caller's `P`
object), then checks `len(a) = len(b)`; only on success is `zkip.P`
assigned and `BIP` entered with `n = len(a)` and empty transcript
lists. -/
def bip.Prove {Pt : Type} (E : Ext Pt) (zkip : bipState Pt) (a b : List Int) (P : Pt) :
    Except Err (proofBip Pt) × bipState Pt × Pt :=
  let x := HashIP E zkip.g zkip.h P zkip.c zkip.n
  let ux := E.smul zkip.u x
  let uxc := E.smul ux zkip.c
  let P2 := E.mul P uxc
  if a.length ≠ b.length then
    (.error bipSizeErr, zkip, P2)
  else
    (.ok (BIP E a b zkip.g zkip.h ux P2 a.length [] []), { zkip with P := P2 }, P2)

/-- The nil-flow refinement of `bip.Prove` (source lines 769-796): the
computation preceding the length check (`HashIP`, `ScalarMult`,
`Multiply` on the caller's `P`) cannot leave a nil, so the
length-mismatch error is always returned normally; on the success
branch the `BIP` recursion may panic (see `BIPrun`), in which case the
call never returns — modelled by `none`. -/
def bip.ProveRun {Pt : Type} (E : Ext Pt) (zkip : bipState Pt) (a b : List Int) (P : Pt) :
    Option (Except Err (proofBip Pt) × bipState Pt × Pt) :=
  let x := HashIP E zkip.g zkip.h P zkip.c zkip.n
  let ux := E.smul zkip.u x
  let uxc := E.smul ux zkip.c
  let P2 := E.mul P uxc
  if a.length ≠ b.length then
    some (.error bipSizeErr, zkip, P2)
  else
    match BIPrun E a.length a b zkip.g zkip.h ux P2 a.length [] [] with
    | none => none
    | some pf => some (.ok pf, { zkip with P := P2 }, P2)

/-- `bip.Verify` (source lines 884-933).  The source's `Pprime` is a
pointer alias of `zkip.P` and every `Pprime.Multiply`/`Neg` mutates the
aliased object, so on return `zkip.P` holds the final folded value
`(-P_folded)·rhs`; the returned state records this.  The error result of
the source is always nil. -/
def bip.Verify {Pt : Type} (E : Ext Pt) (zkip : bipState Pt) (proof : proofBip Pt) :
    Bool × Option Err × bipState Pt :=
  let logn := proof.Ls.length
  let step := fun (st : List Pt × List Pt × Pt × Nat) (i : Nat) =>
    let gp := st.1
    let hp := st.2.1
    let Pp := st.2.2.1
    let np := st.2.2.2 / 2
    let x := (HashBP E (proof.Ls.getD i E.infinity) (proof.Rs.getD i E.infinity)).1
    let xinv := ModInverse x ORDER
    let gp2 := orD (VectorECAdd E (VectorScalarExp E (gp.take np) xinv)
                     (VectorScalarExp E (gp.drop np) x)) []
    let hp2 := orD (VectorECAdd E (VectorScalarExp E (hp.take np) x)
                     (VectorScalarExp E (hp.drop np) xinv)) []
    let x2 := Mod (Multiply x x) ORDER
    let x2inv := ModInverse x2 ORDER
    let Pp2 := E.mul (E.mul Pp (E.smul (proof.Ls.getD i E.infinity) x2))
                 (E.smul (proof.Rs.getD i E.infinity) x2inv)
    (gp2, hp2, Pp2, np)
  let final := (List.range logn).foldl step (zkip.g, zkip.h, zkip.P, proof.n)
  let gp := final.1
  let hp := final.2.1
  let Pp := final.2.2.1
  let ab := Mod (Multiply proof.a proof.b) ORDER
  let rhs := E.mul (E.mul (E.smul (gp.getD 0 E.infinity) proof.a)
                     (E.smul (hp.getD 0 E.infinity) proof.b))
               (E.smul proof.u ab)
  let res := E.mul (E.neg Pp) rhs
  (E.isZero res, none, { zkip with P := res })

/-- The halving loop computing `⌊log₂ n⌋`, driven by an explicit fuel
(`n` itself bounds the number of halvings). -/
def log2Fuel : Nat → Nat → Nat
  | 0, _ => 0
  | f + 1, n => if 2 ≤ n then log2Fuel f (n / 2) + 1 else 0

/-- The bit width stored by `bp.Setup`: the source computes
`int64(math.Log2(float64(b)))` (source line 441).  The float64
conversion and `math.Log2` are external (Go standard library), outside
the shallow embedding; this definition models their composition as
`⌊log₂ b⌋`, computed by the fueled halving loop.  That model is exact
for `1 < b ≤ 2^32`: there `float64 b` is exact, Go's `Log2` is exact on
powers of two (the `frac == 0.5` special case of its implementation),
and for every other such `b` the true logarithm is at distance more
than `2^-33` from the nearest integer — far beyond the few-ulp error of
`Log2` — so the truncation lands on the floor.  For `b` within float64
rounding of a larger power of two the model is NOT faithful: at
`b = 2^63 - 1` the conversion rounds up to `2^63` and the code stores
`63` where the floor is `62`.  No theorem below applies this model
outside the exact range. -/
def floorLog2 (b : Int) : Nat := log2Fuel b.toNat b.toNat

/-- The per-index randomness of `bp.Setup`: `rnd i = (e_g, e_h)` models
the two `rand.Int(rand.Reader, ORDER)` draws of iteration `i`. -/
def SetupRnd : Type := Nat → Int × Int

/-- `bp.Setup` (source lines 434-454): `G` is the base point, `H` is
`MapToGroup SEEDH`, `n = int64(math.Log2(float64(b)))`, and `g[i]`,
`h[i]` are the base point and `H` raised to the per-index random
scalars; finally `zkip.Setup` is invoked with claim `c = 0` (note the
source never sets `zkip.n`, which keeps its previous value).  The first
argument `a` of the source is unused, as in the source. -/
def bp.Setup {Pt : Type} (E : Ext Pt) (rnd : SetupRnd) (zkrp : bp Pt) (_a b : Int) : bp Pt :=
  let G := E.baseMult 1
  let H := E.mapToGroup SEEDH
  let n := floorLog2 b
  let g := (List.range n).map (fun i => E.baseMult (rnd i).1)
  let h := (List.range n).map (fun i => E.smul H (rnd i).2)
  { n := n, G := G, H := H, g := g, h := h, zkip := bip.Setup E zkrp.zkip H g h 0 }

/-- The randomness consumed by one `bp.Prove` call: `gamma`, `alpha`,
`rho`, `tau1`, `tau2` and the two random vectors (drawn entrywise). -/
structure ProveRnd where
  gamma : Int
  alpha : Int
  rho : Int
  tau1 : Int
  tau2 : Int
  sLf : Nat → Int
  sRf : Nat → Int

/-- `bp.Prove` (source lines 459-609), with the RNG draws passed in
explicitly.  Every `, _ :=` error discard of the source is `orD` with the
nil (empty/zero) default; the only fallible call whose error could fire
on an in-range secret is none, and the function's only return is
`(proof, nil)` (source line 608) — the state result records the source's
mutation of `zkrp.zkip.h`, `zkrp.zkip.c` (source lines 591-592) and, via
`zkip.Prove`, of `zkrp.zkip.P`. -/
def bp.Prove {Pt : Type} (E : Ext Pt) (r : ProveRnd) (zkrp : bp Pt) (secret : Int) :
    proofBP Pt × Option Err × bp Pt :=
  let gamma := r.gamma
  let V := CommitG1 E secret gamma zkrp.H
  let aL := orD (Decompose secret 2 zkrp.n) []
  let aR := orD (ComputeAR aL) []
  let alpha := r.alpha
  let A := CommitVector E aL aR alpha zkrp.G zkrp.H zkrp.g zkrp.h zkrp.n
  let rho := r.rho
  let sL := (List.range zkrp.n).map r.sLf
  let sR := (List.range zkrp.n).map r.sRf
  let S := CommitVectorBig E sL sR rho zkrp.G zkrp.H zkrp.g zkrp.h zkrp.n
  let y := (HashBP E A S).1
  let z := (HashBP E A S).2.1
  let tau1 := r.tau1
  let tau2 := r.tau2
  let vz := VectorCopy z zkrp.n
  let vy := PowerOf y zkrp.n
  let naL := VectorConvertToBig aL zkrp.n
  let aLmvz := orD (VectorSub naL vz) []
  let ynsR := orD (VectorMul vy sR) []
  let sp1 := orD (ScalarProduct aLmvz ynsR) 0
  let naR := VectorConvertToBig aR zkrp.n
  let aRzn := orD (VectorAdd naR vz) []
  let ynaRzn := orD (VectorMul vy aRzn) []
  let p2n := PowerOf 2 zkrp.n
  let zsquared := Multiply z z
  let z22n := VectorScalarMul p2n zsquared
  let ynaRzn2 := orD (VectorAdd ynaRzn z22n) []
  let sp2 := orD (ScalarProduct sL ynaRzn2) 0
  let t1 := Mod (Add sp1 sp2) ORDER
  let t2 := Mod (orD (ScalarProduct sL ynsR) 0) ORDER
  let T1 := CommitG1 E t1 tau1 zkrp.H
  let T2 := CommitG1 E t2 tau2 zkrp.H
  let x := (HashBP E T1 T2).1
  let sLx := VectorScalarMul sL x
  let bl := orD (VectorAdd aLmvz sLx) []
  let sRx := VectorScalarMul sR x
  let aRzn2 := orD (VectorAdd aRzn sRx) []
  let ynaRzn3 := orD (VectorMul vy aRzn2) []
  let br := orD (VectorAdd ynaRzn3 z22n) []
  let tprime := orD (ScalarProduct bl br) 0
  let taux := Mod (Add (Add (Multiply tau2 (Multiply x x)) (Multiply tau1 x))
                    (Multiply (Multiply z z) gamma)) ORDER
  let mu := Mod (Add (Multiply rho x) alpha) ORDER
  let hprime := switchGenerators E zkrp.h zkrp.n y
  let zkip1 : bipState Pt := { zkrp.zkip with h := hprime, c := tprime }
  let commit := CommitInnerProduct E zkrp.g hprime bl br
  let ipres := bip.Prove E zkip1 bl br commit
  let proofip := orD ipres.1
    { Ls := [], Rs := [], u := E.infinity, P := E.infinity, g := E.infinity,
      h := E.infinity, a := 0, b := 0, n := 0 }
  ({ V := V, A := A, S := S, T1 := T1, T2 := T2, taux := taux, mu := mu,
     tprime := tprime, proofip := proofip },
   none,
   { zkrp with zkip := ipres.2.1 })

/-- `bp.Verify` (source lines 614-672).  The switched generator vector
`hprime` is computed and then never used, exactly as in the source; the
condition (65) boolean is the `IsZero` test on `rhs · (-lhs)`; the final
result is the conjunction with `zkip.Verify`, the error is always nil,
and the state result records the mutation of `zkip.P` performed inside
`bip.Verify`. -/
def bp.Verify {Pt : Type} (E : Ext Pt) (zkrp : bp Pt) (proof : proofBP Pt) :
    Bool × Option Err × bp Pt :=
  let y := (HashBP E proof.A proof.S).1
  let z := (HashBP E proof.A proof.S).2.1
  let x := (HashBP E proof.T1 proof.T2).1
  let _hprime := switchGenerators E zkrp.h zkrp.n y
  let lhs := CommitG1 E proof.tprime proof.taux zkrp.H
  let z2 := Mod (Multiply z z) ORDER
  let x2 := Mod (Multiply x x) ORDER
  let rhs0 := E.smul proof.V z2
  let delta := Delta zkrp.n y z
  let gdelta := E.baseMult delta
  let rhs1 := E.mul rhs0 gdelta
  let T1x := E.smul proof.T1 x
  let T2x2 := E.smul proof.T2 x2
  let rhs2 := E.mul (E.mul rhs1 T1x) T2x2
  let lhsNeg := E.neg lhs
  let rhs3 := E.mul rhs2 lhsNeg
  let c65 := E.isZero rhs3
  let ipres := bip.Verify E zkrp.zkip proof.proofip
  (c65 && ipres.1, none, { zkrp with zkip := ipres.2.2 })

/-! ### Spec-side definitions

The following definitions are written from the spec's wording (not from
the source); they exist to be compared with the source-derived
definitions above. -/

/-- The spec's inner product `⟨u, v⟩` of two scalar vectors, reduced
modulo q ("All scalar arithmetic is reduced modulo q", spec section 3). -/
def innerProdSpec (u v : List Int) : Int :=
  (List.zipWith (fun x y => x * y) u v).sum % ORDER

/-- The spec's product `Π_{i<k} f i` of group elements. -/
def prodSpec {Pt : Type} (E : Ext Pt) (k : Nat) (f : Nat → Pt) : Pt :=
  ((List.range k).map f).foldl E.mul E.infinity

/-- The halving recursion `BIP` exactly as spec section 4.4 words it,
carrying the original top-level `n` (`nTop`) for the base case
("return proof (a[0], b[0], g[0], h[0], P, u, L, R, original n)"); the
same fuel device as `BIPfuel` makes the halving structural.  Scalars are
reduced modulo q per the spec's global convention; `x⁻¹` and `x⁻²` are
modular inverses. -/
def BIPspecFuel {Pt : Type} (E : Ext Pt) :
    Nat → List Int → List Int → List Pt → List Pt → Pt → Pt → Nat → Nat → List Pt → List Pt →
    proofBip Pt
  | 0, a, b, g, h, u, P, _n, nTop, Ls, Rs =>
    { a := a.getD 0 0, b := b.getD 0 0, g := g.getD 0 E.infinity, h := h.getD 0 E.infinity,
      P := P, u := u, Ls := Ls, Rs := Rs, n := nTop }
  | f + 1, a, b, g, h, u, P, n, nTop, Ls, Rs =>
    if n = 1 then
      { a := a.getD 0 0, b := b.getD 0 0, g := g.getD 0 E.infinity, h := h.getD 0 E.infinity,
        P := P, u := u, Ls := Ls, Rs := Rs, n := nTop }
    else if n < 2 then
      { a := a.getD 0 0, b := b.getD 0 0, g := g.getD 0 E.infinity, h := h.getD 0 E.infinity,
        P := P, u := u, Ls := Ls, Rs := Rs, n := nTop }
    else
      let nprime := n / 2
      let cL := innerProdSpec (a.take nprime) (b.drop nprime)
      let cR := innerProdSpec (a.drop nprime) (b.take nprime)
      let L := E.mul
        (E.mul (prodSpec E nprime (fun i => E.smul (g.getD (nprime + i) E.infinity) (a.getD i 0)))
          (prodSpec E nprime (fun i => E.smul (h.getD i E.infinity) (b.getD (nprime + i) 0))))
        (E.smul u cL)
      let R := E.mul
        (E.mul (prodSpec E nprime (fun i => E.smul (g.getD i E.infinity) (a.getD (nprime + i) 0)))
          (prodSpec E nprime (fun i => E.smul (h.getD (nprime + i) E.infinity) (b.getD i 0))))
        (E.smul u cR)
      let x := (HashBP E L R).1
      let xinv := ModInverse x ORDER
      let gprime := (List.range nprime).map (fun i =>
        E.mul (E.smul (g.getD i E.infinity) xinv) (E.smul (g.getD (nprime + i) E.infinity) x))
      let hprime := (List.range nprime).map (fun i =>
        E.mul (E.smul (h.getD i E.infinity) x) (E.smul (h.getD (nprime + i) E.infinity) xinv))
      let x2 := (x * x) % ORDER
      let x2inv := ModInverse x2 ORDER
      let Pprime := E.mul (E.mul (E.smul L x2) P) (E.smul R x2inv)
      let aprime := (List.range nprime).map (fun i =>
        (a.getD i 0 * x + a.getD (nprime + i) 0 * xinv) % ORDER)
      let bprime := (List.range nprime).map (fun i =>
        (b.getD i 0 * xinv + b.getD (nprime + i) 0 * x) % ORDER)
      BIPspecFuel E f aprime bprime gprime hprime u Pprime nprime nTop (Ls ++ [L]) (Rs ++ [R])

/-- The spec's `BIP` entry point; `nTop` is the original top-level `n`. -/
def BIPspec {Pt : Type} (E : Ext Pt) (a b : List Int) (g h : List Pt) (u P : Pt)
    (n nTop : Nat) (Ls Rs : List Pt) : proofBip Pt :=
  BIPspecFuel E n a b g h u P n nTop Ls Rs

/-- The spec's closed form of `δ(y, z)`:
`(z - z²)·⟨1ⁿ, yⁿ⟩ - z³·⟨1ⁿ, 2ⁿ⟩ (mod q)` with exact integer powers
(spec section 4.3 step 3). -/
def deltaSpec (n : Nat) (y z : Int) : Int :=
  ((z - z ^ 2) * (∑ i in Finset.range n, y ^ i)
    - z ^ 3 * (∑ i in Finset.range n, (2 : Int) ^ i)) % ORDER

/-- The claim's reading of `HashBP` (spec section 4.5): both scalars
reduced mod q. -/
def HashBPclaim {Pt : Type} (E : Ext Pt) (A S : Pt) : Int × Int :=
  (FromByteArray (E.sha (E.str A ++ E.str S)) % ORDER,
   FromByteArray (E.sha (E.str S ++ E.str A)) % ORDER)

/-- The group laws of the external point operations: `mul` is a
commutative group operation with identity `infinity` and inverse `neg`,
and `isZero` tests for the identity.  The real secp256k1 `p256`
satisfies all of them. -/
structure GroupLaws {Pt : Type} (E : Ext Pt) : Prop where
  mul_assoc : ∀ a b c, E.mul (E.mul a b) c = E.mul a (E.mul b c)
  mul_comm : ∀ a b, E.mul a b = E.mul b a
  inf_mul : ∀ a, E.mul E.infinity a = a
  mul_neg : ∀ a, E.mul a (E.neg a) = E.infinity
  isZero_iff : ∀ a, E.isZero a = true ↔ a = E.infinity

/-! ### Concrete instantiations of the external interface

Used only to evaluate the embedded code at concrete inputs (witnesses
and counterexamples). -/

/-- The additive group of integers as a concrete instance of the
external interface (`mul` is `+`, `smul p k` is `k·p`, the identity is
`0`); `sha` is the constant single-byte digest `[1]`, so every
Fiat-Shamir challenge evaluates to `1`. -/
def extA : Ext Int where
  mul := fun a b => a + b
  smul := fun p k => k * p
  baseMult := fun k => 2 * k
  neg := fun p => -p
  infinity := 0
  isZero := fun p => p == 0
  str := fun p => intDecimalBytes p
  mapToGroup := fun _ => 7
  sha := fun _ => [1]

/-- As `extA`, but `sha` is the constant all-`0xff` 32-byte digest, whose
big-endian value `2^256 - 1` exceeds `ORDER`. -/
def extFF : Ext Int :=
  { extA with sha := fun _ => List.replicate 32 255 }

/-- A zeroed parameter value (the Go zero value of `bp`). -/
def bp0 : bp Int :=
  { n := 0, G := 0, H := 0, g := [], h := [],
    zkip := { n := 0, c := 0, u := 0, H := 0, g := [], h := [], P := 0 } }

/-- A constant setup-RNG supplying the scalar pair `(1, 1)` at every index. -/
def rndPair : SetupRnd := fun _ => (1, 1)

/-- Parameters with `n = 1` used to exercise `bp.Verify`; the IPA state
holds `g = [1]`, `h = [0]` and `P = 1`. -/
def st3 : bp Int :=
  { n := 1, G := 1, H := 0, g := [1], h := [5],
    zkip := { n := 0, c := 0, u := 0, H := 0, g := [1], h := [0], P := 1 } }

/-- A proof value whose condition-(65) check passes under `extA` and
`st3` (all challenges evaluate to `1`) and whose IPA part has an empty
transcript, `a = 1`, `b = 0`. -/
def pf3 : proofBP Int :=
  { V := 2, A := 0, S := 0, T1 := 0, T2 := 0, taux := 7, mu := 0, tprime := ORDER,
    proofip := { Ls := [], Rs := [], u := 0, P := 0, g := 0, h := 0, a := 1, b := 0, n := 1 } }

/-- Parameters with `n = 1` used to exercise `bp.Prove`; the IPA state
starts with claim `c = 0` and `P = 0`. -/
def st4 : bp Int :=
  { n := 1, G := 1, H := 2, g := [3], h := [4],
    zkip := { n := 0, c := 0, u := 5, H := 2, g := [3], h := [4], P := 0 } }

/-- A concrete batch of prover randomness (all draws `1`). -/
def rnd4 : ProveRnd :=
  { gamma := 1, alpha := 1, rho := 1, tau1 := 1, tau2 := 1,
    sLf := fun _ => 1, sRf := fun _ => 1 }

/-- An IPA state with three generators, used with equal-length witness
vectors of length three (not a power of two). -/
def zkip6 : bipState Int :=
  { n := 0, c := 1, u := 1, H := 0, g := [1, 2, 3], h := [4, 5, 6], P := 0 }

/-- An IPA state with two generators, used with equal-length witness
vectors of length two (a power of two). -/
def zkip7 : bipState Int :=
  { n := 0, c := 1, u := 1, H := 0, g := [1, 2], h := [4, 5], P := 0 }

/-- An IPA state with `c = 3` and stored `P = 7`, used on the
length-mismatch error path of `bip.Prove`. -/
def zkipX : bipState Int :=
  { n := 0, c := 3, u := 1, H := 0, g := [], h := [], P := 7 }

/-! ### Helper lemmas -/

/-- `extA` satisfies the group laws. -/
theorem extA_laws : GroupLaws extA := by
  constructor <;> intros <;> simp [extA] <;> omega

/-- The fueled halving loop computes `Nat.log 2` whenever the fuel
dominates the argument. -/
theorem log2Fuel_eq (f n : Nat) (hn : n ≤ f) : log2Fuel f n = Nat.log 2 n := by
  induction f generalizing n with
  | zero => interval_cases n; simp [log2Fuel]
  | succ f ih =>
    by_cases h2 : 2 ≤ n
    · rw [log2Fuel, if_pos h2, ih (n / 2) (by omega)]
      conv_rhs => rw [Nat.log]
      rw [dif_pos ⟨h2, by norm_num⟩]
    · rw [log2Fuel, if_neg h2, Nat.log]
      rw [dif_neg (by omega)]

/-- The running mod-`ORDER` accumulator of `ScalarProduct` equals the
single final reduction of the plain inner-product sum. -/
theorem scalarProductAux_mod (a : List Int) : ∀ (b : List Int) (acc : Int),
    ScalarProductAux (acc % ORDER) a b
      = (acc + (List.zipWith (fun x y => x * y) a b).sum) % ORDER := by
  induction a with
  | nil => intro b acc; cases b <;> simp [ScalarProductAux]
  | cons x xs ih =>
    intro b acc
    cases b with
    | nil => simp [ScalarProductAux]
    | cons y ys =>
      have h1 : Mod (Add (acc % ORDER) (Multiply x y)) ORDER = (acc + x * y) % ORDER := by
        simp [Mod, Add, Multiply, Int.emod_add_emod]
      simp only [ScalarProductAux, List.zipWith_cons_cons, List.sum_cons]
      rw [h1, ih ys (acc + x * y)]
      rw [add_assoc]

/-- `ScalarProduct` on equal-length vectors succeeds with the spec's
inner product. -/
theorem scalarProduct_eq (a b : List Int) (h : a.length = b.length) :
    ScalarProduct a b = Except.ok (innerProdSpec a b) := by
  rw [ScalarProduct, if_neg (by omega)]
  rw [innerProdSpec]
  have h0 := scalarProductAux_mod a b 0
  simpa using h0

/-- The error-discarding call pattern of `ScalarProduct` on equal-length
vectors yields the spec's inner product. -/
theorem scalarProduct_orD (a b : List Int) (h : a.length = b.length) :
    orD (ScalarProduct a b) 0 = innerProdSpec a b := by
  rw [scalarProduct_eq a b h]
  rfl

/-- Length of the `PowerOf` iteration. -/
theorem powerOfAux_length (x : Int) (n : Nat) : ∀ cur, (PowerOfAux x cur n).length = n := by
  induction n with
  | zero => intro cur; rfl
  | succ n ih => intro cur; simp [PowerOfAux, ih]

/-- `PowerOf x n` has length `n`. -/
theorem powerOf_length (x : Int) (n : Nat) : (PowerOf x n).length = n :=
  powerOfAux_length x n 1

/-- The sum of the progressively reduced power vector is congruent to
`cur` times the geometric sum. -/
theorem powerOfAux_sum_modeq (x : Int) (n : Nat) : ∀ cur : Int,
    Int.ModEq ORDER ((PowerOfAux x cur n).sum) (cur * ∑ i in Finset.range n, x ^ i) := by
  induction n with
  | zero => intro cur; simp [PowerOfAux]
  | succ n ih =>
    intro cur
    simp only [PowerOfAux, List.sum_cons]
    have h1 := ih (Mod (Multiply cur x) ORDER)
    have h2 : Int.ModEq ORDER (Mod (Multiply cur x) ORDER * ∑ i in Finset.range n, x ^ i)
        (cur * x * ∑ i in Finset.range n, x ^ i) :=
      Int.ModEq.mul (Int.emod_emod_of_dvd _ dvd_rfl) (Int.ModEq.refl _)
    calc cur + (PowerOfAux x (Mod (Multiply cur x) ORDER) n).sum
        ≡ cur + cur * x * ∑ i in Finset.range n, x ^ i [ZMOD ORDER] :=
          Int.ModEq.add_left _ (h1.trans h2)
      _ = cur * ∑ i in Finset.range (n + 1), x ^ i := by rw [geom_sum_succ]; ring

/-- The sum of `PowerOf x n` is congruent to the geometric sum mod
`ORDER`. -/
theorem powerOf_sum_modeq (x : Int) (n : Nat) :
    Int.ModEq ORDER ((PowerOf x n).sum) (∑ i in Finset.range n, x ^ i) := by
  have h := powerOfAux_sum_modeq x n 1
  simpa [PowerOf] using h

/-- Pairing with the all-ones vector is the identity on the products. -/
theorem zipWith_one_mul (v : List Int) : ∀ (n : Nat), v.length = n →
    List.zipWith (fun x y => x * y) (VectorCopy 1 n) v = v := by
  induction v with
  | nil => intro n h; simp [VectorCopy]
  | cons a l ih =>
    intro n h
    subst h
    simp only [List.length_cons, VectorCopy, List.replicate_succ, List.zipWith_cons_cons,
      one_mul]
    have := ih l.length rfl
    rw [VectorCopy] at this
    rw [this]

/-- The derived two-sided identity law. -/
theorem GroupLaws.mul_inf {Pt : Type} {E : Ext Pt} (hL : GroupLaws E) (a : Pt) :
    E.mul a E.infinity = a := by rw [hL.mul_comm, hL.inf_mul]

/-- Under the group laws, `IsZero (b · a⁻¹)` tests the equality
`a = b`. -/
theorem GroupLaws.isZero_mul_neg_iff {Pt : Type} {E : Ext Pt} (hL : GroupLaws E) (a b : Pt) :
    E.isZero (E.mul b (E.neg a)) = true ↔ a = b := by
  rw [hL.isZero_iff]
  constructor
  · intro h
    have h2 : E.mul (E.mul b (E.neg a)) a = E.mul E.infinity a := by rw [h]
    rw [hL.inf_mul, hL.mul_assoc, hL.mul_comm (E.neg a) a, hL.mul_neg, hL.mul_inf] at h2
    exact h2.symm
  · intro h
    rw [h, hL.mul_neg]

/-- A zip of equal-length lists as an indexed map over `range`. -/
theorem zipWith_eq_range_map {α β γ : Type} (f : α → β → γ) (d : α) (d' : β) :
    ∀ (u : List α) (v : List β), u.length = v.length →
      List.zipWith f u v
        = (List.range u.length).map (fun i => f (u.getD i d) (v.getD i d')) := by
  intro u
  induction u with
  | nil => intro v h; simp
  | cons x xs ih =>
    intro v h
    cases v with
    | nil => simp at h
    | cons y ys =>
      simp only [List.length_cons]
      rw [List.range_succ_eq_map]
      simp only [List.zipWith_cons_cons, List.map_cons, List.getD_cons_zero, List.map_map]
      rw [ih ys (by simpa using h)]
      refine congrArg (f x y :: ·) (List.map_congr_left ?_)
      intro i _
      simp [Function.comp]

/-- A `take`/`drop` zip of a doubled-length pair of lists as an indexed
map. -/
theorem zipWith_take_drop {α β γ : Type} (f : α → β → γ) (d : α) (d' : β)
    (u : List α) (v : List β) (k : Nat) (hu : u.length = 2 * k) (hv : v.length = 2 * k) :
    List.zipWith f (u.take k) (v.drop k)
      = (List.range k).map (fun i => f (u.getD i d) (v.getD (k + i) d')) := by
  have hl : (u.take k).length = k := by rw [List.length_take]; omega
  rw [zipWith_eq_range_map f d d' _ _ (by rw [hl, List.length_drop]; omega), hl]
  apply List.map_congr_left
  intro i hi
  rw [List.mem_range] at hi
  simp [List.getD_eq_getElem?_getD, List.getElem?_take, hi, List.getElem?_drop]

/-- A `drop`/`take` zip of a doubled-length pair of lists as an indexed
map. -/
theorem zipWith_drop_take {α β γ : Type} (f : α → β → γ) (d : α) (d' : β)
    (u : List α) (v : List β) (k : Nat) (hu : u.length = 2 * k) (hv : v.length = 2 * k) :
    List.zipWith f (u.drop k) (v.take k)
      = (List.range k).map (fun i => f (u.getD (k + i) d) (v.getD i d')) := by
  have hl : (u.drop k).length = k := by rw [List.length_drop]; omega
  rw [zipWith_eq_range_map f d d' _ _ (by rw [hl, List.length_take]; omega), hl]
  apply List.map_congr_left
  intro i hi
  rw [List.mem_range] at hi
  simp [List.getD_eq_getElem?_getD, List.getElem?_take, hi, List.getElem?_drop]

/-- `VectorExp` with its error discarded, on equal lengths. -/
theorem vectorExp_orD {Pt : Type} (E : Ext Pt) (g : List Pt) (m : List Int)
    (h : g.length = m.length) :
    orD (VectorExp E g m) E.infinity = (List.zipWith E.smul g m).foldl E.mul E.infinity := by
  rw [VectorExp, if_neg (by omega)]
  rfl

/-- `VectorECAdd` with its error discarded, on equal lengths. -/
theorem vectorECAdd_orD {Pt : Type} (E : Ext Pt) (u v : List Pt) (h : u.length = v.length) :
    orD (VectorECAdd E u v) [] = List.zipWith E.mul u v := by
  rw [VectorECAdd, if_neg (by omega)]
  rfl

/-- `VectorAdd` with its error discarded, on equal lengths, in raw
integer operations. -/
theorem vectorAdd_orD (a b : List Int) (h : a.length = b.length) :
    orD (VectorAdd a b) [] = List.zipWith (fun x y => (x + y) % ORDER) a b := by
  rw [VectorAdd, if_neg (by omega)]
  simp [orD, Mod, Add]

/-- `VectorScalarMul` preserves length. -/
theorem vectorScalarMul_length (a : List Int) (x : Int) :
    (VectorScalarMul a x).length = a.length := by
  simp [VectorScalarMul]

/-- `VectorScalarExp` preserves length. -/
theorem vectorScalarExp_length {Pt : Type} (E : Ext Pt) (a : List Pt) (x : Int) :
    (VectorScalarExp E a x).length = a.length := by
  simp [VectorScalarExp]

/-- Length of `VectorAdd` with its error discarded, on equal lengths. -/
theorem vectorAdd_orD_length (a b : List Int) (h : a.length = b.length) :
    (orD (VectorAdd a b) []).length = a.length := by
  rw [vectorAdd_orD a b h]
  simp [h]

/-- Length of `VectorECAdd` with its error discarded, on equal
lengths. -/
theorem vectorECAdd_orD_length {Pt : Type} (E : Ext Pt) (u v : List Pt)
    (h : u.length = v.length) :
    (orD (VectorECAdd E u v) []).length = u.length := by
  rw [vectorECAdd_orD E u v h]
  simp [h]

/-- On power-of-two aligned lengths every internal check of the `BIP`
recursion succeeds, so the nil-tracking `BIPrun` returns normally with
exactly the `BIPfuel` value. -/
theorem BIPrun_pow2 {Pt : Type} (E : Ext Pt) : ∀ (k f : Nat) (a b : List Int)
    (g h : List Pt) (u P : Pt) (Ls Rs : List Pt),
    2 ^ k ≤ f →
    a.length = 2 ^ k → b.length = 2 ^ k → g.length = 2 ^ k → h.length = 2 ^ k →
    BIPrun E f a b g h u P (2 ^ k) Ls Rs = some (BIPfuel E f a b g h u P (2 ^ k) Ls Rs) := by
  intro k
  induction k with
  | zero =>
    intro f a b g h u P Ls Rs hf ha hb hg hh
    obtain ⟨f', rfl⟩ : ∃ f', f = f' + 1 := ⟨f - 1, by omega⟩
    simp [BIPrun, BIPfuel, ha, hb, hg, hh]
  | succ k ih =>
    intro f a b g h u P Ls Rs hf ha hb hg hh
    have h1 : (1 : Nat) ≤ 2 ^ k := Nat.one_le_two_pow
    have hp : (2 : Nat) ^ (k + 1) = 2 * 2 ^ k := by rw [pow_succ]; ring
    obtain ⟨f', rfl⟩ : ∃ f', f = f' + 1 := ⟨f - 1, by omega⟩
    have hne : ¬((2 : Nat) ^ (k + 1) = 1) := by omega
    have hlt : ¬((2 : Nat) ^ (k + 1) < 2) := by omega
    have hnp : (2 : Nat) ^ (k + 1) / 2 = 2 ^ k := by omega
    have hta : (a.take (2 ^ k)).length = 2 ^ k := by rw [List.length_take]; omega
    have hda : (a.drop (2 ^ k)).length = 2 ^ k := by rw [List.length_drop]; omega
    have htb : (b.take (2 ^ k)).length = 2 ^ k := by rw [List.length_take]; omega
    have hdb : (b.drop (2 ^ k)).length = 2 ^ k := by rw [List.length_drop]; omega
    have htg : (g.take (2 ^ k)).length = 2 ^ k := by rw [List.length_take]; omega
    have hdg : (g.drop (2 ^ k)).length = 2 ^ k := by rw [List.length_drop]; omega
    have hth : (h.take (2 ^ k)).length = 2 ^ k := by rw [List.length_take]; omega
    have hdh : (h.drop (2 ^ k)).length = 2 ^ k := by rw [List.length_drop]; omega
    simp only [BIPrun, BIPfuel, if_neg hne, if_neg hlt, hnp]
    rw [if_pos ⟨hta.trans hdb.symm, hda.trans htb.symm, hdg.trans hta.symm,
      hth.trans hdb.symm, htg.trans hda.symm, hdh.trans htb.symm, htg.trans hdg.symm,
      hth.trans hdh.symm, hta.trans hda.symm, htb.trans hdb.symm⟩]
    rw [ih f' _ _ _ _ _ _ _ _ (by omega) ?_ ?_ ?_ ?_]
    case _ =>
      rw [vectorAdd_orD_length _ _
          (by rw [vectorScalarMul_length, vectorScalarMul_length, hta, hda]),
        vectorScalarMul_length, hta]
    case _ =>
      rw [vectorAdd_orD_length _ _
          (by rw [vectorScalarMul_length, vectorScalarMul_length, htb, hdb]),
        vectorScalarMul_length, htb]
    case _ =>
      rw [vectorECAdd_orD_length E _ _
          (by rw [vectorScalarExp_length, vectorScalarExp_length, htg, hdg]),
        vectorScalarExp_length, htg]
    case _ =>
      rw [vectorECAdd_orD_length E _ _
          (by rw [vectorScalarExp_length, vectorScalarExp_length, hth, hdh]),
        vectorScalarExp_length, hth]

/-- On aligned equal lengths that are not a power of two, the `BIP`
recursion reaches a level whose internal length checks fail — the
source then dereferences a nil value and the call never returns. -/
theorem BIPrun_not_pow2 {Pt : Type} (E : Ext Pt) : ∀ (f n : Nat) (a b : List Int)
    (g h : List Pt) (u P : Pt) (Ls Rs : List Pt),
    n ≤ f → a.length = n → b.length = n → g.length = n → h.length = n →
    (¬ ∃ k : Nat, n = 2 ^ k) →
    BIPrun E f a b g h u P n Ls Rs = none := by
  intro f
  induction f with
  | zero => intros; rfl
  | succ f ih =>
    intro n a b g h u P Ls Rs hnf ha hb hg hh hnp
    by_cases h1 : n = 1
    · exact absurd ⟨0, by simp [h1]⟩ hnp
    by_cases h0 : n < 2
    · simp only [BIPrun, if_neg h1, if_pos h0]
    rcases Nat.even_or_odd n with he | ho
    · have hev : n % 2 = 0 := Nat.even_iff.mp he
      have hta : (a.take (n / 2)).length = n / 2 := by rw [List.length_take]; omega
      have hda : (a.drop (n / 2)).length = n / 2 := by rw [List.length_drop]; omega
      have htb : (b.take (n / 2)).length = n / 2 := by rw [List.length_take]; omega
      have hdb : (b.drop (n / 2)).length = n / 2 := by rw [List.length_drop]; omega
      have htg : (g.take (n / 2)).length = n / 2 := by rw [List.length_take]; omega
      have hdg : (g.drop (n / 2)).length = n / 2 := by rw [List.length_drop]; omega
      have hth : (h.take (n / 2)).length = n / 2 := by rw [List.length_take]; omega
      have hdh : (h.drop (n / 2)).length = n / 2 := by rw [List.length_drop]; omega
      simp only [BIPrun, if_neg h1, if_neg h0]
      rw [if_pos ⟨hta.trans hdb.symm, hda.trans htb.symm, hdg.trans hta.symm,
        hth.trans hdb.symm, htg.trans hda.symm, hdh.trans htb.symm, htg.trans hdg.symm,
        hth.trans hdh.symm, hta.trans hda.symm, htb.trans hdb.symm⟩]
      rw [ih (n / 2) _ _ _ _ _ _ _ _ (by omega) ?_ ?_ ?_ ?_ ?_]
      case _ =>
        rw [vectorAdd_orD_length _ _
            (by rw [vectorScalarMul_length, vectorScalarMul_length, hta, hda]),
          vectorScalarMul_length, hta]
      case _ =>
        rw [vectorAdd_orD_length _ _
            (by rw [vectorScalarMul_length, vectorScalarMul_length, htb, hdb]),
          vectorScalarMul_length, htb]
      case _ =>
        rw [vectorECAdd_orD_length E _ _
            (by rw [vectorScalarExp_length, vectorScalarExp_length, htg, hdg]),
          vectorScalarExp_length, htg]
      case _ =>
        rw [vectorECAdd_orD_length E _ _
            (by rw [vectorScalarExp_length, vectorScalarExp_length, hth, hdh]),
          vectorScalarExp_length, hth]
      case _ =>
        rintro ⟨k, hk⟩
        exact hnp ⟨k + 1, by rw [pow_succ]; omega⟩
    · have hodd : n % 2 = 1 := Nat.odd_iff.mp ho
      simp only [BIPrun, if_neg h1, if_neg h0]
      rw [if_neg (by
        intro hc
        obtain ⟨c1, -⟩ := hc
        rw [List.length_take, List.length_drop, ha, hb] at c1
        omega)]

/-- Recombining the two componentwise reductions of a sum into one. -/
theorem add_emod_entry (s t x y : Int) :
    (s * x % ORDER + t * y % ORDER) % ORDER = (s * x + t * y) % ORDER :=
  (Int.add_emod _ _ _).symm

/-- The `n` field of the spec recursion is always the carried top-level
`n`. -/
theorem BIPspecFuel_n {Pt : Type} (E : Ext Pt) : ∀ (f : Nat) (a b : List Int)
    (g h : List Pt) (u P : Pt) (n nTop : Nat) (Ls Rs : List Pt),
    (BIPspecFuel E f a b g h u P n nTop Ls Rs).n = nTop := by
  intro f
  induction f with
  | zero => intros; rfl
  | succ f ih =>
    intro a b g h u P n nTop Ls Rs
    simp only [BIPspecFuel]
    by_cases h1 : n = 1
    · rw [if_pos h1]
    · rw [if_neg h1]
      by_cases h2 : n < 2
      · rw [if_pos h2]
      · rw [if_neg h2]
        exact ih ..

/-- Updating the `n` field with its own value is the identity. -/
theorem proofBip_update_n_eta {Pt : Type} (X : proofBip Pt) (m : Nat) (h : X.n = m) :
    { X with n := m } = X := by
  cases X
  subst h
  rfl

/-- The source recursion agrees with the spec recursion on power-of-two
lengths: the code-side `BIPfuel` equals the spec-side `BIPspecFuel` up
to the `n` field, which the code sets to the current level's `n` and the
spec to the carried `nTop`. -/
theorem BIPfuel_eq_specFuel {Pt : Type} (E : Ext Pt) : ∀ (k f : Nat) (a b : List Int)
    (g h : List Pt) (u P : Pt) (Ls Rs : List Pt) (nTop : Nat),
    2 ^ k ≤ f →
    a.length = 2 ^ k → b.length = 2 ^ k → g.length = 2 ^ k → h.length = 2 ^ k →
    BIPfuel E f a b g h u P (2 ^ k) Ls Rs
      = { BIPspecFuel E f a b g h u P (2 ^ k) nTop Ls Rs with n := 2 ^ k } := by
  intro k
  induction k with
  | zero =>
    intro f a b g h u P Ls Rs nTop hf ha hb hg hh
    obtain ⟨f', rfl⟩ : ∃ f', f = f' + 1 := ⟨f - 1, by omega⟩
    simp [BIPfuel, BIPspecFuel]
  | succ k ih =>
    intro f a b g h u P Ls Rs nTop hf ha hb hg hh
    have h1 : (1 : Nat) ≤ 2 ^ k := Nat.one_le_two_pow
    have hp : (2 : Nat) ^ (k + 1) = 2 * 2 ^ k := by rw [pow_succ]; ring
    obtain ⟨f', rfl⟩ : ∃ f', f = f' + 1 := ⟨f - 1, by omega⟩
    have hne : ¬((2 : Nat) ^ (k + 1) = 1) := by omega
    have hlt : ¬((2 : Nat) ^ (k + 1) < 2) := by omega
    have hnp : (2 : Nat) ^ (k + 1) / 2 = 2 ^ k := by omega
    have hta : (a.take (2 ^ k)).length = 2 ^ k := by rw [List.length_take]; omega
    have hda : (a.drop (2 ^ k)).length = 2 ^ k := by rw [List.length_drop]; omega
    have htb : (b.take (2 ^ k)).length = 2 ^ k := by rw [List.length_take]; omega
    have hdb : (b.drop (2 ^ k)).length = 2 ^ k := by rw [List.length_drop]; omega
    have htg : (g.take (2 ^ k)).length = 2 ^ k := by rw [List.length_take]; omega
    have hdg : (g.drop (2 ^ k)).length = 2 ^ k := by rw [List.length_drop]; omega
    have hth : (h.take (2 ^ k)).length = 2 ^ k := by rw [List.length_take]; omega
    have hdh : (h.drop (2 ^ k)).length = 2 ^ k := by rw [List.length_drop]; omega
    simp only [BIPfuel, BIPspecFuel, prodSpec, VectorScalarExp, VectorScalarMul,
      if_neg hne, if_neg hlt, hnp, Mod, Multiply, Add]
    rw [scalarProduct_orD _ _ (hta.trans hdb.symm),
      scalarProduct_orD _ _ (hda.trans htb.symm)]
    rw [vectorExp_orD E _ _ (hdg.trans hta.symm), vectorExp_orD E _ _ (hth.trans hdb.symm),
      vectorExp_orD E _ _ (htg.trans hda.symm), vectorExp_orD E _ _ (hdh.trans htb.symm)]
    rw [zipWith_drop_take E.smul E.infinity 0 g a (2 ^ k) (hg.trans hp) (ha.trans hp),
      zipWith_take_drop E.smul E.infinity 0 h b (2 ^ k) (hh.trans hp) (hb.trans hp),
      zipWith_take_drop E.smul E.infinity 0 g a (2 ^ k) (hg.trans hp) (ha.trans hp),
      zipWith_drop_take E.smul E.infinity 0 h b (2 ^ k) (hh.trans hp) (hb.trans hp)]
    rw [vectorECAdd_orD E _ _ (by rw [List.length_map, List.length_map, htg, hdg]),
      vectorECAdd_orD E _ _ (by rw [List.length_map, List.length_map, hth, hdh])]
    rw [List.zipWith_map_left, List.zipWith_map_right,
      List.zipWith_map_left, List.zipWith_map_right]
    rw [zipWith_take_drop _ E.infinity E.infinity g g (2 ^ k) (hg.trans hp) (hg.trans hp),
      zipWith_take_drop _ E.infinity E.infinity h h (2 ^ k) (hh.trans hp) (hh.trans hp)]
    rw [vectorAdd_orD _ _ (by rw [List.length_map, List.length_map, hta, hda]),
      vectorAdd_orD _ _ (by rw [List.length_map, List.length_map, htb, hdb])]
    rw [List.zipWith_map_left, List.zipWith_map_right,
      List.zipWith_map_left, List.zipWith_map_right]
    rw [zipWith_take_drop _ (0 : Int) (0 : Int) a a (2 ^ k) (ha.trans hp) (ha.trans hp),
      zipWith_take_drop _ (0 : Int) (0 : Int) b b (2 ^ k) (hb.trans hp) (hb.trans hp)]
    simp only [add_emod_entry]
    rw [ih f' _ _ _ _ _ _ _ _ nTop (by omega) (by simp) (by simp) (by simp) (by simp)]

/-! ### Claim theorems -/

/-- C2: the range check.  The spec-modelled `Decompose` does fail with
OutOfRange at `v = 2³²` and `v = -1` and succeeds at `2³² - 1`, but
`bp.Prove` discards the error (`aL, _ := Decompose(...)`, source line
475) and its only return statement is `return proof, nil` (source line
608), so `bp.Prove` returns a nil error for every input — it never
reports OutOfRange, contradicting the claim. -/
theorem claim_C2_prove_never_errors :
    Decompose (2 ^ 32) 2 32 = Except.error outOfRangeErr ∧
    Decompose (-1) 2 32 = Except.error outOfRangeErr ∧
    (Decompose (2 ^ 32 - 1) 2 32).isOk = true ∧
    ∀ {Pt : Type} (E : Ext Pt) (r : ProveRnd) (zkrp : bp Pt) (v : Int),
      (bp.Prove E r zkrp v).2.1 = none :=
  ⟨by rfl, by rfl, by decide, fun _ _ _ _ => rfl⟩

/-- C3: `bp.Verify` is not a pure function of its inputs.  At the
concrete instance `extA`/`st3`/`pf3` the first call returns `true`, the
immediately repeated call on the resulting state returns `false`, and
the IPA state field `P` has been overwritten (the source's `Pprime` is a
pointer alias of `zkip.P`, source lines 896, 913-914, 928-929). -/
theorem claim_C3_verify_not_pure :
    (bp.Verify extA st3 pf3).1 = true ∧
    (bp.Verify extA ((bp.Verify extA st3 pf3).2.2) pf3).1 = false ∧
    (bp.Verify extA st3 pf3).2.2.zkip.P ≠ st3.zkip.P := by
  refine ⟨by decide, by decide, by decide⟩

/-- C4 counterexample: parameters are not immutable under `bp.Prove`:
at the concrete instance the embedded IPA claim field `c` is `0` before
the call and `3` (the computed `t′`) after it (source line 592), and the
IPA state field `P` moves from `0` to `30`. -/
theorem claim_C4_counterexample :
    (bp.Prove extA rnd4 st4 1).2.2.zkip.c = 3 ∧ st4.zkip.c = 0 ∧
    (bp.Prove extA rnd4 st4 1).2.2.zkip.P = 30 ∧ st4.zkip.P = 0 := by
  refine ⟨by decide, by decide, by decide, by decide⟩

/-- C4 amended: `bp.Prove` leaves the top-level parameter fields `n`,
`G`, `H`, `g`, `h` and the embedded IPA fields `n`, `u`, `H`, `g`
unchanged (it overwrites only the IPA fields `h`, `c` and `P`). -/
theorem claim_C4_amended {Pt : Type} (E : Ext Pt) (r : ProveRnd) (zkrp : bp Pt) (v : Int) :
    ((bp.Prove E r zkrp v).2.2.n = zkrp.n ∧
     (bp.Prove E r zkrp v).2.2.G = zkrp.G ∧
     (bp.Prove E r zkrp v).2.2.H = zkrp.H ∧
     (bp.Prove E r zkrp v).2.2.g = zkrp.g ∧
     (bp.Prove E r zkrp v).2.2.h = zkrp.h) ∧
    ((bp.Prove E r zkrp v).2.2.zkip.n = zkrp.zkip.n ∧
     (bp.Prove E r zkrp v).2.2.zkip.u = zkrp.zkip.u ∧
     (bp.Prove E r zkrp v).2.2.zkip.H = zkrp.zkip.H ∧
     (bp.Prove E r zkrp v).2.2.zkip.g = zkrp.zkip.g) := by
  simp only [bp.Prove, bip.Prove]
  split <;> simp

/-- C5 counterexample: `HashBP` does not reduce its scalars modulo
`ORDER`: with the external hash returning the all-`0xff` digest, the
first returned scalar is `2^256 - 1`, which differs from the claim's
mod-`ORDER`-reduced value. -/
theorem claim_C5_counterexample :
    (HashBP extFF (0 : Int) 0).1 ≠ (HashBPclaim extFF (0 : Int) 0).1 := by decide

/-- C5 amended: `HashBP(P, Q)` returns
`s₁ = FromByteArray(SHA-256(encode(P) ++ encode(Q)))` and
`s₂ = FromByteArray(SHA-256(encode(Q) ++ encode(P)))` — the big-endian
unsigned digest values with no reduction modulo q — together with a nil
error; the claim's reduced scalars are exactly these values mod
`ORDER`. -/
theorem claim_C5_amended {Pt : Type} (E : Ext Pt) (A S : Pt) :
    (HashBP E A S).1 = FromByteArray (E.sha (E.str A ++ E.str S)) ∧
    (HashBP E A S).2.1 = FromByteArray (E.sha (E.str S ++ E.str A)) ∧
    (HashBP E A S).2.2 = none ∧
    (HashBP E A S).1 % ORDER = (HashBPclaim E A S).1 ∧
    (HashBP E A S).2.1 % ORDER = (HashBPclaim E A S).2 :=
  ⟨rfl, rfl, rfl, rfl, rfl⟩

/-- C6 counterexample: `bip.Prove` never returns a NotPowerOfTwo error.
On equal-length witness vectors of length `3` (not a power of two) the
nil-tracking model of the call yields no result at all: the recursion's
failed internal length checks leave nil values whose dereference
(`L.Multiply`, source line 834) crashes the program before any return —
in particular no NotPowerOfTwo error value is ever produced. -/
theorem claim_C6_counterexample :
    (bip.ProveRun extA zkip6 [1, 1, 1] [1, 1, 1] 0).isNone = true := by decide

/-- C6 amended: `bip.Prove` fails with the length-mismatch error exactly
when `|a| ≠ |b|` (that check precedes the recursion and always returns
normally); it never produces a NotPowerOfTwo error: with generator
vectors matching the witness length, it returns the `BIP` proof with a
nil error when the common length is a power of two, and when it is not,
a failed internal length check leaves a nil value whose dereference
crashes the call before any return (`none` — no error value of any kind
is produced). -/
theorem claim_C6_amended {Pt : Type} (E : Ext Pt) (zkip : bipState Pt) (a b : List Int)
    (P : Pt) :
    (a.length ≠ b.length →
      bip.ProveRun E zkip a b P =
        some (Except.error bipSizeErr, zkip,
          E.mul P (E.smul (E.smul zkip.u (HashIP E zkip.g zkip.h P zkip.c zkip.n)) zkip.c))) ∧
    (∀ k : Nat, a.length = 2 ^ k → b.length = 2 ^ k →
      zkip.g.length = 2 ^ k → zkip.h.length = 2 ^ k →
      bip.ProveRun E zkip a b P =
        some (Except.ok (BIP E a b zkip.g zkip.h
            (E.smul zkip.u (HashIP E zkip.g zkip.h P zkip.c zkip.n))
            (E.mul P (E.smul (E.smul zkip.u
              (HashIP E zkip.g zkip.h P zkip.c zkip.n)) zkip.c))
            a.length [] []),
          { zkip with P := E.mul P (E.smul (E.smul zkip.u
              (HashIP E zkip.g zkip.h P zkip.c zkip.n)) zkip.c) },
          E.mul P (E.smul (E.smul zkip.u (HashIP E zkip.g zkip.h P zkip.c zkip.n)) zkip.c))) ∧
    ((¬ ∃ k : Nat, a.length = 2 ^ k) → a.length = b.length →
      zkip.g.length = a.length → zkip.h.length = a.length →
      bip.ProveRun E zkip a b P = none) := by
  refine ⟨?_, ?_, ?_⟩
  · intro hab
    simp only [bip.ProveRun]
    rw [if_pos hab]
  · intro k ha hb hg hh
    simp only [bip.ProveRun, BIP]
    rw [if_neg (by simp [ha, hb])]
    rw [ha]
    rw [BIPrun_pow2 E k (2 ^ k) a b zkip.g zkip.h _ _ [] [] le_rfl ha hb hg hh]
  · intro hnp hab hg hh
    simp only [bip.ProveRun]
    rw [if_neg (by omega)]
    rw [BIPrun_not_pow2 E a.length a.length a b zkip.g zkip.h _ _ [] [] le_rfl rfl
      hab.symm hg hh hnp]

/-- C6 witness: the three branches of the amended statement at concrete
inputs — mismatch error, power-of-two success, non-power-of-two
crash. -/
theorem claim_C6_witness :
    bip.ProveRun extA zkipX [1] [] 0 =
      some (Except.error bipSizeErr, zkipX,
        extA.mul 0 (extA.smul (extA.smul zkipX.u
          (HashIP extA zkipX.g zkipX.h 0 zkipX.c zkipX.n)) zkipX.c)) ∧
    bip.ProveRun extA zkip7 [1, 2] [3, 4] 0 =
      some (Except.ok (BIP extA [1, 2] [3, 4] zkip7.g zkip7.h
          (extA.smul zkip7.u (HashIP extA zkip7.g zkip7.h 0 zkip7.c zkip7.n))
          (extA.mul 0 (extA.smul (extA.smul zkip7.u
            (HashIP extA zkip7.g zkip7.h 0 zkip7.c zkip7.n)) zkip7.c))
          ([1, 2] : List Int).length [] []),
        { zkip7 with P := extA.mul 0 (extA.smul (extA.smul zkip7.u
            (HashIP extA zkip7.g zkip7.h 0 zkip7.c zkip7.n)) zkip7.c) },
        extA.mul 0 (extA.smul (extA.smul zkip7.u
          (HashIP extA zkip7.g zkip7.h 0 zkip7.c zkip7.n)) zkip7.c)) ∧
    bip.ProveRun extA zkip6 [1, 1, 1] [1, 1, 1] 0 = none :=
  ⟨(claim_C6_amended extA zkipX [1] [] 0).1 (by decide),
   (claim_C6_amended extA zkip7 [1, 2] [3, 4] 0).2.1 1 rfl rfl rfl rfl,
   (claim_C6_amended extA zkip6 [1, 1, 1] [1, 1, 1] 0).2.2
     (by
       rintro ⟨k, hk⟩
       rcases k with _ | _ | k
       · simp at hk
       · simp at hk
       · rw [pow_succ, pow_succ] at hk
         have h2 := Nat.one_le_two_pow (n := k)
         simp at hk
         omega)
     rfl rfl rfl⟩

/-- C9 counterexample: at upper bound `b = 5` the stored bit width is
`⌊log₂ 5⌋ = 2` (the source truncates `math.Log2`, source line 441),
while the claim's `⌈log₂ 5⌉` is `3`. -/
theorem claim_C9_counterexample :
    (bp.Setup extA rndPair bp0 0 5).n = 2 ∧ Nat.clog 2 5 = 3 := by
  constructor
  · decide
  · rw [Nat.clog, dif_pos (by norm_num)]
    norm_num
    rw [Nat.clog, dif_pos (by norm_num)]
    norm_num
    rw [Nat.clog, dif_pos (by norm_num)]
    norm_num

/-- C9 amended: for every upper bound `b` with `1 < b ≤ 2³²` — the range
in which the source's float64 pipeline (`int64(math.Log2(float64(b)))`,
line 441) provably computes the truncated logarithm exactly, see
`floorLog2` — the stored bit width is `⌊log₂ b⌋ = Nat.log 2 b`,
equivalently the unique `n` with `2ⁿ ≤ b < 2ⁿ⁺¹`.  (Near larger powers
of two the float conversion rounds up — at `b = 2⁶³ − 1` the code
stores `63` — so no single exact formula covers all int64 bounds; the
claim's `⌈log₂ b⌉` is wrong already at `b = 5`.) -/
theorem claim_C9_amended {Pt : Type} (E : Ext Pt) (rnd : SetupRnd) (zkrp : bp Pt)
    (a b : Int) (hb : 1 < b) (hb2 : b ≤ 2 ^ 32) :
    (bp.Setup E rnd zkrp a b).n = Nat.log 2 b.toNat ∧
    2 ^ (bp.Setup E rnd zkrp a b).n ≤ b.toNat ∧
    b.toNat < 2 ^ ((bp.Setup E rnd zkrp a b).n + 1) := by
  have hn : (bp.Setup E rnd zkrp a b).n = Nat.log 2 b.toNat := by
    show floorLog2 b = _
    unfold floorLog2
    exact log2Fuel_eq _ _ le_rfl
  refine ⟨hn, ?_, ?_⟩
  · rw [hn]
    exact Nat.pow_log_le_self 2 (by omega)
  · rw [hn]
    exact Nat.lt_pow_succ_log_self (by norm_num) _

/-- C9 witness: the amended statement at `b = 8`. -/
theorem claim_C9_witness :
    (bp.Setup extA rndPair bp0 0 8).n = Nat.log 2 (8 : Int).toNat ∧
    2 ^ (bp.Setup extA rndPair bp0 0 8).n ≤ (8 : Int).toNat ∧
    (8 : Int).toNat < 2 ^ ((bp.Setup extA rndPair bp0 0 8).n + 1) :=
  claim_C9_amended extA rndPair bp0 0 8 (by norm_num) (by norm_num)

/-- C10 counterexample: on the length-mismatch error path of
`bip.Prove` the caller's `P` has been multiplied by `u^{x·c}`
(`7 ↦ 10` at this instance) but the stored `zkip.P` is assigned only on
the success path and still holds its old value `7` — the claim's
assertion that `zkip.P` has been modified is false. -/
theorem claim_C10_counterexample :
    (bip.Prove extA zkipX [1] [] 7).1 = Except.error bipSizeErr ∧
    (bip.Prove extA zkipX [1] [] 7).2.1.P = 7 ∧ zkipX.P = 7 ∧
    (bip.Prove extA zkipX [1] [] 7).2.2 = 10 := by
  refine ⟨by rfl, by decide, by decide, by decide⟩

/-- C10 amended: whenever `|a| ≠ |b|`, `bip.Prove` returns the
length-mismatch error with the state entirely unchanged, while the
caller's point `P` has already been multiplied in place by `u^{x·c}`
(`x` the Fiat-Shamir scalar, `c` the stored claim) — the error path is
not atomic for the caller's `P`, but `zkip.P` is untouched. -/
theorem claim_C10_amended {Pt : Type} (E : Ext Pt) (zkip : bipState Pt) (a b : List Int)
    (P : Pt) (hab : a.length ≠ b.length) :
    bip.Prove E zkip a b P =
      (Except.error bipSizeErr, zkip,
       E.mul P (E.smul (E.smul zkip.u (HashIP E zkip.g zkip.h P zkip.c zkip.n)) zkip.c)) := by
  simp only [bip.Prove]
  rw [if_pos hab]

/-- C10 witness: the amended statement at a concrete state. -/
theorem claim_C10_witness :
    bip.Prove extA zkipX [1] [] 7 =
      (Except.error bipSizeErr, zkipX,
       extA.mul 7 (extA.smul (extA.smul zkipX.u
         (HashIP extA zkipX.g zkipX.h 7 zkipX.c zkipX.n)) zkipX.c)) :=
  claim_C10_amended extA zkipX [1] [] 7 (by decide)

/-- C8: `Delta` returns exactly the spec's closed form
`(z - z²)·⟨1ⁿ, yⁿ⟩ - z³·⟨1ⁿ, 2ⁿ⟩` reduced modulo `ORDER`, and the
result always lies in `[0, ORDER)` despite the unreduced intermediate
subtraction. -/
theorem claim_C8_delta_closed_form (n : Nat) (y z : Int) :
    Delta n y z = deltaSpec n y z ∧ 0 ≤ Delta n y z ∧ Delta n y z < ORDER := by
  refine ⟨?_, ?_, ?_⟩
  · simp only [Delta, deltaSpec]
    rw [scalarProduct_orD _ _ (by simp [VectorCopy, powerOf_length]),
      scalarProduct_orD _ _ (by simp [VectorCopy, powerOf_length]),
      innerProdSpec, innerProdSpec,
      zipWith_one_mul _ _ (powerOf_length y n), zipWith_one_mul _ _ (powerOf_length 2 n)]
    show Int.ModEq ORDER _ _
    simp only [Mod, Sub, Multiply, Add]
    have hz2 : Int.ModEq ORDER (z * z % ORDER) (z ^ 2) := by
      rw [sq]
      exact Int.emod_emod_of_dvd _ dvd_rfl
    have hz3 : Int.ModEq ORDER (z * z % ORDER * z % ORDER) (z ^ 3) := by
      calc z * z % ORDER * z % ORDER
          ≡ z * z % ORDER * z [ZMOD ORDER] := Int.emod_emod_of_dvd _ dvd_rfl
        _ ≡ z * z * z [ZMOD ORDER] :=
            Int.ModEq.mul (Int.emod_emod_of_dvd _ dvd_rfl) (Int.ModEq.refl _)
        _ = z ^ 3 := by ring
    have hy : Int.ModEq ORDER ((PowerOf y n).sum % ORDER) (∑ i in Finset.range n, y ^ i) :=
      (Int.emod_emod_of_dvd _ dvd_rfl).trans (powerOf_sum_modeq y n)
    have h2 : Int.ModEq ORDER ((PowerOf 2 n).sum % ORDER)
        (∑ i in Finset.range n, (2 : Int) ^ i) :=
      (Int.emod_emod_of_dvd _ dvd_rfl).trans (powerOf_sum_modeq 2 n)
    exact Int.ModEq.sub (Int.ModEq.mul (Int.ModEq.sub (Int.ModEq.refl z) hz2) hy)
      (Int.ModEq.mul hz3 h2)
  · simp only [Delta, Mod]
    exact Int.emod_nonneg _ (by decide)
  · simp only [Delta, Mod]
    exact Int.emod_lt_of_pos _ (by decide)

/-- C1: under the group laws of the curve, `bp.Verify` returns `true`
exactly when both the condition-(65) identity
`G^{t′}·H^{τ_x} = V^{z²}·G^{δ(y,z)}·T₁^x·T₂^{x²}` (with `y`, `z`, `x` the
re-derived Fiat-Shamir challenges) and the embedded IPA verification
hold, and its error result is always nil — a failed proof is the boolean
`false`, not an error. -/
theorem claim_C1_verify_iff {Pt : Type} (E : Ext Pt) (hL : GroupLaws E) (zkrp : bp Pt)
    (pf : proofBP Pt) :
    ((bp.Verify E zkrp pf).1 = true ↔
      (CommitG1 E pf.tprime pf.taux zkrp.H =
        E.mul (E.mul (E.mul
          (E.smul pf.V
            (Mod (Multiply ((HashBP E pf.A pf.S).2.1) ((HashBP E pf.A pf.S).2.1)) ORDER))
          (E.baseMult (Delta zkrp.n ((HashBP E pf.A pf.S).1) ((HashBP E pf.A pf.S).2.1))))
          (E.smul pf.T1 ((HashBP E pf.T1 pf.T2).1)))
          (E.smul pf.T2
            (Mod (Multiply ((HashBP E pf.T1 pf.T2).1) ((HashBP E pf.T1 pf.T2).1)) ORDER)) ∧
       (bip.Verify E zkrp.zkip pf.proofip).1 = true)) ∧
    (bp.Verify E zkrp pf).2.1 = none := by
  constructor
  · show (_ && _) = true ↔ _
    rw [Bool.and_eq_true]
    rw [hL.isZero_mul_neg_iff]
  · rfl

/-- C1 witness: at the concrete instance the identity and the IPA check
both hold, so the iff yields `Verify = true`. -/
theorem claim_C1_witness : (bp.Verify extA st3 pf3).1 = true :=
  (claim_C1_verify_iff extA extA_laws st3 pf3).1.mpr ⟨by decide, by decide⟩

/-- C7: on power-of-two `n` with all four vectors of length `n`, the
source recursion `BIP` equals the spec's halving recursion `BIPspec`:
the same folded generators `g′[i] = g[i]^{x⁻¹}·g[n′+i]^{x}`,
`h′[i] = h[i]^{x}·h[n′+i]^{x⁻¹}`, commitment `P′ = L^{x²}·P·R^{x⁻²}`,
witnesses `a′[i] = a[i]·x + a[n′+i]·x⁻¹`, `b′[i] = b[i]·x⁻¹ + b[n′+i]·x`
with `x` the first `HashBP(L, R)` scalar, the same appended transcript,
and base case `(a[0], b[0], g[0], h[0], P, u, L, R)` carrying the
original top-level `n`. -/
theorem claim_C7_bip_follows_spec {Pt : Type} (E : Ext Pt) (a b : List Int)
    (g h : List Pt) (u P : Pt) (Ls Rs : List Pt) (k : Nat)
    (ha : a.length = 2 ^ k) (hb : b.length = 2 ^ k)
    (hg : g.length = 2 ^ k) (hh : h.length = 2 ^ k) :
    BIP E a b g h u P (2 ^ k) Ls Rs = BIPspec E a b g h u P (2 ^ k) (2 ^ k) Ls Rs := by
  rw [BIP, BIPspec]
  rw [BIPfuel_eq_specFuel E k (2 ^ k) a b g h u P Ls Rs (2 ^ k) le_rfl ha hb hg hh]
  exact proofBip_update_n_eta _ _ (BIPspecFuel_n E ..)

/-- C7 witness: the agreement at a concrete length-2 instance. -/
theorem claim_C7_witness :
    BIP extA [1, 2] [3, 4] [5, 6] [7, 8] 9 10 (2 ^ 1) [] []
      = BIPspec extA [1, 2] [3, 4] [5, 6] [7, 8] 9 10 (2 ^ 1) (2 ^ 1) [] [] :=
  claim_C7_bip_follows_spec extA [1, 2] [3, 4] [5, 6] [7, 8] 9 10 [] [] 1
    rfl rfl rfl rfl

end ZKRP
